import Mathlib

/-!
A shallow embedding of `gains.py` (capital_gains): the trade data model, the
FIFO lot matcher `pair_trades`, trade-pair construction, and the option-group
finalization steps of `finish`, together with theorems checking the
specification's claims against this embedding.

Modelling conventions:
* Python `date` values are represented by their proleptic Gregorian ordinal
  (`toOrdinal`, matching `datetime.date.toordinal`), so date comparison and
  `timedelta(days = n)` arithmetic are plain `Nat` comparison and addition.
* `Decimal` prices are represented by `ℚ`; signed share counts by `ℤ`.
* Python property setters (`symbol`, `price`) are explicit functions applied
  wherever the source assigns through them; the `security_type` setter's
  membership check is made total by the `SecurityType` enumeration.
* `StockTrade.__init__`'s `row` payload is omitted: no modelled operation
  reads it.
* Exceptions (`ValueError` from the queue check and `finish`,
  `AssertionError` from `TradePair.__init__`) are modelled with
  `Except String`.
* The matcher is given twice: a value-level version (`pair_trades`), exact
  because every field assignment in `StockTrade.match` targets a fresh
  `copy()`, and a ref-and-store version (`pair_tradesS`) in which Python
  object identity, allocation and field mutation are explicit.  Coupling
  lemmas relate the two, which settles the purity/no-mutation claim.
-/

namespace CapitalGains

/-- `security_type` values admitted by the `StockTrade.security_type` setter. -/
inductive SecurityType where
  | stock
  | option
deriving Repr, DecidableEq, Inhabited

/-- Gregorian leap-year test, as in Python's `calendar.isleap`. -/
def isLeap (y : Nat) : Bool := y % 4 == 0 && (y % 100 != 0 || y % 400 == 0)

/-- Days in the months strictly before month `m` (1-based) of year `y`. -/
def daysBeforeMonth (y m : Nat) : Nat :=
  let base := [0, 31, 59, 90, 120, 151, 181, 212, 243, 273, 304, 334].getD (m - 1) 0
  if 2 < m && isLeap y then base + 1 else base

/-- Proleptic Gregorian ordinal of the date `y-m-d`, with day 1 = 0001-01-01,
matching Python's `datetime.date.toordinal`. -/
def toOrdinal (y m d : Nat) : Nat :=
  365 * (y - 1) + (y - 1) / 4 - (y - 1) / 100 + (y - 1) / 400 + daysBeforeMonth y m + d

/-- `StockOption`: identifies one option contract (underlying, right, strike,
expiration).  `otype` is `"call"` or `"put"` in the source; the assertion in
`StockOption.__init__` is not needed by any claim and is not modelled. -/
structure StockOption where
  symbol : String
  otype : String
  strike : ℚ
  odate : Nat
deriving Repr, DecidableEq, Inhabited

/-- Python's `str.upper` (ASCII symbols only appear here): uppercase each
character.  Stated over the underlying character list, which is
extensionally `String.toUpper`. -/
def upperStr (s : String) : String := ⟨s.data.map Char.toUpper⟩

/-- The `StockTrade.symbol` property setter: uppercase, then apply the
`SYMBOL_ALIAS` table (`{"FB": "META"}`). -/
def symSetter (value : String) : String :=
  let value := upperStr value
  if value = "FB" then "META" else value

/-- The `StockTrade.price` property setter: negative input is stored negated,
so the stored price is a magnitude. -/
def priceSetter (value : ℚ) : ℚ := if value < 0 then -value else value

/-- A normalized trade record (`StockTrade`).  `fake` is the synthetic-close
marker (`origin_flag` in the spec), `trade_type` the disposition hint
(`some "confusion"` for an ambiguous option expiration). -/
structure StockTrade where
  symbol : String
  security_type : SecurityType
  date : Nat
  quantity : Int
  price : ℚ
  option : Option StockOption := none
  fake : Bool := false
  trade_type : Option String := none
deriving Repr, DecidableEq, Inhabited

/-- `StockTrade.copy`: builds a fresh `StockTrade` and re-assigns `symbol`,
`security_type`, `date`, `quantity`, `price`, `option` through the same
setters the source uses.  `fake` and `trade_type` are NOT copied: they keep
the `__init__` defaults `False` / `None`. -/
def StockTrade.copy (t : StockTrade) : StockTrade :=
  { symbol := symSetter t.symbol
    security_type := t.security_type
    date := t.date
    quantity := t.quantity
    price := priceSetter t.price
    option := t.option
    fake := false
    trade_type := none }

/-- `StockTrade.amount`: `quantity * price`. -/
def StockTrade.amount (t : StockTrade) : ℚ := (t.quantity : ℚ) * t.price

/-- The sort key `[t.date, -t.quantity]` of `TradePair.__init__`, compared
lexicographically; `keyLt a b` is true when `a` sorts strictly before `b`. -/
def keyLt (a b : StockTrade) : Bool :=
  decide (a.date < b.date) ||
    (decide (a.date = b.date) && decide (-a.quantity < -b.quantity))

/-- A matched pair (`TradePair`).  `t1`/`t2` are the date-sorted legs; the
derived fields are snapshotted at construction, as in the source. -/
structure TradePair where
  t1 : StockTrade
  t2 : StockTrade
  symbol : String
  security_type : SecurityType
  quantity : Int
  date1 : Nat
  date2 : Nat
  profit : ℚ
  fake : Bool
  short : Bool
deriving Repr, DecidableEq, Inhabited

/-- The body of `TradePair.__init__` after its assertions: stable two-element
sort by `[date, -quantity]`, snapshot fields, profit from the trades as
passed in, short/long test against a 366-day window. -/
def mkTradePair (a b : StockTrade) : TradePair :=
  let l1 := if keyLt b a then b else a
  let l2 := if keyLt b a then a else b
  { t1 := l1
    t2 := l2
    symbol := l1.symbol
    security_type := l1.security_type
    quantity := l1.quantity
    date1 := l1.date
    date2 := l2.date
    profit := -(a.amount + b.amount)
    fake := l1.fake || l2.fake
    short := decide (l2.date < l1.date + 366) }

/-- `TradePair.__init__` including its three `assert` statements; a failed
assertion is an `AssertionError`. -/
def mkTradePairE (t1 t2 : StockTrade) : Except String TradePair :=
  if t1.quantity * t2.quantity < 0 then
    if t1.symbol = t2.symbol then
      if t1.security_type = t2.security_type then .ok (mkTradePair t1 t2)
      else .error "AssertionError"
    else .error "AssertionError"
  else .error "AssertionError"

/-- `StockTrade.match self trade`: split the larger side, emit one pair.
Returns the remainder (if any) and the pair. -/
def matchT (self trade : StockTrade) : Except String (Option StockTrade × TradePair) :=
  let remain_q := self.quantity + trade.quantity
  if remain_q ≠ 0 then
    if remain_q * self.quantity > 0 then
      let remain_trade := { self.copy with quantity := remain_q }
      let t1 := { self.copy with quantity := self.quantity - remain_q }
      match mkTradePairE t1 trade with
      | .error e => .error e
      | .ok p => .ok (some remain_trade, p)
    else
      let remain_trade := { trade.copy with quantity := remain_q }
      let t2 := { trade.copy with quantity := trade.quantity - remain_q }
      match mkTradePairE self t2 with
      | .error e => .error e
      | .ok p => .ok (some remain_trade, p)
  else
    match mkTradePairE self trade with
    | .error e => .error e
    | .ok p => .ok (none, p)

/-- The inner `while not sq.empty()` loop of the buy branch of `pair_trades`:
match `trade` against the sell queue.  Returns the unconsumed buy trade (if
the queue emptied first), the updated sell queue and the emitted pairs.
`queue.Queue.get` pops the head; `queue.Queue.put` appends at the tail. -/
def buyLoop (trade : StockTrade) (sq : List StockTrade) (pairs : List TradePair) :
    Except String (Option StockTrade × List StockTrade × List TradePair) :=
  match sq with
  | [] => .ok (some trade, [], pairs)
  | st :: rest =>
    match matchT trade st with
    | .error e => .error e
    | .ok (remain, pair) =>
      let pairs := pairs ++ [pair]
      match remain with
      | none => .ok (none, rest, pairs)
      | some r =>
        if r.quantity < 0 then .ok (none, rest ++ [r], pairs)
        else buyLoop r rest pairs

/-- The inner `while not bq.empty()` loop of the sell branch of
`pair_trades`, symmetric to `buyLoop`. -/
def sellLoop (trade : StockTrade) (bq : List StockTrade) (pairs : List TradePair) :
    Except String (Option StockTrade × List StockTrade × List TradePair) :=
  match bq with
  | [] => .ok (some trade, [], pairs)
  | bt :: rest =>
    match matchT trade bt with
    | .error e => .error e
    | .ok (remain, pair) =>
      let pairs := pairs ++ [pair]
      match remain with
      | none => .ok (none, rest, pairs)
      | some r =>
        if r.quantity > 0 then .ok (none, rest ++ [r], pairs)
        else sellLoop r rest pairs

/-- The main `for trade in trades` loop of `pair_trades`, carrying the buy
queue, the sell queue and the emitted pairs. -/
def pairGo : List StockTrade → List StockTrade → List StockTrade → List TradePair →
    Except String (List StockTrade × List StockTrade × List TradePair)
  | [], bq, sq, pairs => .ok (bq, sq, pairs)
  | trade :: ts, bq, sq, pairs =>
    if trade.quantity > 0 then
      match buyLoop trade sq pairs with
      | .error e => .error e
      | .ok (rem, sq', pairs') =>
        match rem with
        | some t => pairGo ts (bq ++ [t]) sq' pairs'
        | none => pairGo ts bq sq' pairs'
    else
      match sellLoop trade bq pairs with
      | .error e => .error e
      | .ok (rem, bq', pairs') =>
        match rem with
        | some t => pairGo ts bq' (sq ++ [t]) pairs'
        | none => pairGo ts bq' sq pairs'

/-- The `ValueError` message raised when a queue is left non-empty (the
double space appears in the source f-string). -/
def unbalancedMsg (n : Nat) : String :=
  "queue not empty, check for missing open/close txns,  initial trades " ++ toString n

/-- `StockTrades.pair_trades`: run the two-queue matcher over the trades of
one instrument; raise if either queue is non-empty at the end. -/
def pair_trades (trades : List StockTrade) : Except String (List TradePair) :=
  match pairGo trades [] [] [] with
  | .error e => .error e
  | .ok (bq, sq, pairs) =>
    if sq ≠ [] ∨ bq ≠ [] then .error (unbalancedMsg trades.length)
    else .ok pairs

/-- Whether a trade carries the ambiguous-expiration marker. -/
def isConfusion (t : StockTrade) : Bool := t.trade_type == some "confusion"

/-- Sum of the quantities of the non-confusion trades (`q` in `finish`). -/
def netNormal (trades : List StockTrade) : Int :=
  ((trades.filter fun t => !isConfusion t).map (·.quantity)).sum

/-- Sum of the quantities of the confusion trades (`c_q` in `finish`). -/
def netConfusion (trades : List StockTrade) : Int :=
  ((trades.filter fun t => isConfusion t).map (·.quantity)).sum

/-- The confusion-resolution step of `StockTrades.finish` for one option
contract group: flip every confusion trade's quantity in place exactly when
`q - c_q == 0` and neither earlier balance check fired. -/
def resolveConfusion (trades : List StockTrade) : List StockTrade :=
  if netNormal trades = 0 ∧ netConfusion trades = 0 then trades
  else if netNormal trades + netConfusion trades = 0 then trades
  else if netNormal trades - netConfusion trades = 0 then
    trades.map fun t => if isConfusion t then { t with quantity := -t.quantity } else t
  else trades

/-- Sum of all quantities of a group. -/
def netQuantity (trades : List StockTrade) : Int := (trades.map (·.quantity)).sum

/-- The auto-close step of `StockTrades.finish` for one option contract
group: on a nonzero net, either append a synthetic zero-price closing copy of
the group's first trade (when `close_options`) or raise naming the contract
and the residual quantity. -/
def closeGroup (close_options : Bool) (opt_id : String) (trades : List StockTrade) :
    Except String (List StockTrade) :=
  if netQuantity trades ≠ 0 then
    if close_options then
      .ok (trades ++ [{ trades.headI.copy with quantity := -netQuantity trades, price := priceSetter 0, fake := true }])
    else .error (opt_id ++ " quantity " ++ toString (netQuantity trades) ++ " open")
  else .ok trades

/-- Both per-group steps of `StockTrades.finish` in source order. -/
def finishGroup (close_options : Bool) (opt_id : String) (trades : List StockTrade) :
    Except String (List StockTrade) :=
  closeGroup close_options opt_id (resolveConfusion trades)

/-- Pairs component of a matcher result (empty on error). -/
def pairsOf (r : Except String (List TradePair)) : List TradePair :=
  match r with
  | .ok ps => ps
  | .error _ => []

/-- Trades component of a `finish` step result (empty on error). -/
def tradesOf (r : Except String (List StockTrade)) : List StockTrade :=
  match r with
  | .ok g => g
  | .error _ => []

/-! ## Ref-and-store model of the matcher

Python trades are heap objects; `trade.match` mutates `quantity` on objects
it creates with `copy()`.  To state that `pair_trades` mutates none of its
input trades (and is therefore a pure function of their values), we repeat
the matcher over an explicit store: a `Ref` is an object identity, the store
maps refs to current `StockTrade` values, `copy()` allocates, and each
`x.quantity = v` assignment of the source is a store write. -/

/-- Object identity: an index into the store. -/
abbrev Ref := Nat

/-- The heap of trade objects. -/
abbrev Store := List StockTrade

/-- Read the current value of a trade object. -/
def readS (s : Store) (r : Ref) : StockTrade := s.getD r default

/-- The assignment `obj.quantity = q` on the object named `r`. -/
def writeQS (s : Store) (r : Ref) (q : Int) : Store :=
  s.set r { readS s r with quantity := q }

/-- Allocate a fresh trade object holding `t`. -/
def allocS (s : Store) (t : StockTrade) : Store × Ref := (s ++ [t], s.length)

/-- `StockTrade.match` on the store: `copy()` allocates, the two
`quantity` assignments write, the pair is built from the objects' current
values. -/
def matchS (s : Store) (selfR tradeR : Ref) :
    Except String (Option Ref × TradePair) × Store :=
  let self := readS s selfR
  let trade := readS s tradeR
  let remain_q := self.quantity + trade.quantity
  if remain_q ≠ 0 then
    if remain_q * self.quantity > 0 then
      let a1 := allocS s self.copy
      let a2 := allocS a1.1 self.copy
      let s2 := writeQS a2.1 a2.2 (self.quantity - remain_q)
      let s3 := writeQS s2 a1.2 remain_q
      match mkTradePairE (readS s3 a2.2) (readS s3 tradeR) with
      | .error e => (.error e, s3)
      | .ok p => (.ok (some a1.2, p), s3)
    else
      let a1 := allocS s trade.copy
      let a2 := allocS a1.1 trade.copy
      let s2 := writeQS a2.1 a2.2 (trade.quantity - remain_q)
      let s3 := writeQS s2 a1.2 remain_q
      match mkTradePairE (readS s3 selfR) (readS s3 a2.2) with
      | .error e => (.error e, s3)
      | .ok p => (.ok (some a1.2, p), s3)
  else
    match mkTradePairE (readS s selfR) (readS s tradeR) with
    | .error e => (.error e, s)
    | .ok p => (.ok (none, p), s)

/-- `buyLoop` on the store: queues hold object identities. -/
def buyLoopS (s : Store) (tradeR : Ref) (sq : List Ref) (pairs : List TradePair) :
    Except String (Option Ref × List Ref × List TradePair) × Store :=
  match sq with
  | [] => (.ok (some tradeR, [], pairs), s)
  | stR :: rest =>
    match matchS s tradeR stR with
    | (.error e, s1) => (.error e, s1)
    | (.ok (remainO, pair), s1) =>
      let pairs := pairs ++ [pair]
      match remainO with
      | none => (.ok (none, rest, pairs), s1)
      | some rR =>
        if (readS s1 rR).quantity < 0 then (.ok (none, rest ++ [rR], pairs), s1)
        else buyLoopS s1 rR rest pairs

/-- `sellLoop` on the store. -/
def sellLoopS (s : Store) (tradeR : Ref) (bq : List Ref) (pairs : List TradePair) :
    Except String (Option Ref × List Ref × List TradePair) × Store :=
  match bq with
  | [] => (.ok (some tradeR, [], pairs), s)
  | btR :: rest =>
    match matchS s tradeR btR with
    | (.error e, s1) => (.error e, s1)
    | (.ok (remainO, pair), s1) =>
      let pairs := pairs ++ [pair]
      match remainO with
      | none => (.ok (none, rest, pairs), s1)
      | some rR =>
        if (readS s1 rR).quantity > 0 then (.ok (none, rest ++ [rR], pairs), s1)
        else sellLoopS s1 rR rest pairs

/-- The main loop of `pair_trades` on the store. -/
def pairGoS (s : Store) : List Ref → List Ref → List Ref → List TradePair →
    Except String (List Ref × List Ref × List TradePair) × Store
  | [], bq, sq, pairs => (.ok (bq, sq, pairs), s)
  | tradeR :: ts, bq, sq, pairs =>
    if (readS s tradeR).quantity > 0 then
      match buyLoopS s tradeR sq pairs with
      | (.error e, s1) => (.error e, s1)
      | (.ok (rem, sq', pairs'), s1) =>
        match rem with
        | some r => pairGoS s1 ts (bq ++ [r]) sq' pairs'
        | none => pairGoS s1 ts bq sq' pairs'
    else
      match sellLoopS s tradeR bq pairs with
      | (.error e, s1) => (.error e, s1)
      | (.ok (rem, bq', pairs'), s1) =>
        match rem with
        | some r => pairGoS s1 ts bq' (sq ++ [r]) pairs'
        | none => pairGoS s1 ts bq' sq pairs'

/-- `StockTrades.pair_trades` on the store: the trades of the instrument are
given by object identity. -/
def pair_tradesS (s : Store) (ids : List Ref) : Except String (List TradePair) × Store :=
  match pairGoS s ids [] [] [] with
  | (.error e, s1) => (.error e, s1)
  | (.ok (bq, sq, pairs), s1) =>
    if sq ≠ [] ∨ bq ≠ [] then (.error (unbalancedMsg ids.length), s1)
    else (.ok pairs, s1)

/-- `StockTrades.stock_pairs`: `pair_trades` applied to the ledger's stored
stock-trade list (here: the list of trade object identities it holds). -/
def stock_pairsS (s : Store) (stock_trades : List Ref) :
    Except String (List TradePair) × Store :=
  pair_tradesS s stock_trades

/-- The store grew by allocation only: `s'` extends `s`. -/
def StoreExt (s s' : Store) : Prop := ∃ u, s' = s ++ u

/-- Coupling of an optional remainder object with an optional remainder
value. -/
def OptCpl (s : Store) : Option Ref → Option StockTrade → Prop
  | some r, some v => r < s.length ∧ readS s r = v
  | none, none => True
  | _, _ => False

/-- Coupling of `matchS` and `matchT` results. -/
def MCpl (s : Store) : Except String (Option Ref × TradePair) →
    Except String (Option StockTrade × TradePair) → Prop
  | .error e', .error e => e' = e
  | .ok (remR, p'), .ok (rem, p) => p' = p ∧ OptCpl s remR rem
  | _, _ => False

/-- Coupling of `buyLoopS`/`sellLoopS` and `buyLoop`/`sellLoop` results. -/
def BCpl (s : Store) : Except String (Option Ref × List Ref × List TradePair) →
    Except String (Option StockTrade × List StockTrade × List TradePair) → Prop
  | .error e', .error e => e' = e
  | .ok (remR, qR, ps'), .ok (rem, q, ps) =>
      ps' = ps ∧ qR.map (readS s) = q ∧ (∀ r ∈ qR, r < s.length) ∧ OptCpl s remR rem
  | _, _ => False

/-- Coupling of `pairGoS` and `pairGo` results. -/
def GCpl (s : Store) : Except String (List Ref × List Ref × List TradePair) →
    Except String (List StockTrade × List StockTrade × List TradePair) → Prop
  | .error e', .error e => e' = e
  | .ok (bqR, sqR, ps'), .ok (bq, sq, ps) =>
      ps' = ps ∧ bqR.map (readS s) = bq ∧ sqR.map (readS s) = sq ∧
      (∀ r ∈ bqR, r < s.length) ∧ (∀ r ∈ sqR, r < s.length)
  | _, _ => False

/-! ## Matcher invariants (for the balance claim) -/

/-- An entry the buy queue may hold: positive quantity, the instrument's
symbol and security type. -/
def goodBuy (sym : String) (sec : SecurityType) (t : StockTrade) : Prop :=
  0 < t.quantity ∧ t.symbol = sym ∧ t.security_type = sec

/-- An entry the sell queue may hold: negative quantity, the instrument's
symbol and security type. -/
def goodSell (sym : String) (sec : SecurityType) (t : StockTrade) : Prop :=
  t.quantity < 0 ∧ t.symbol = sym ∧ t.security_type = sec

/-- The loop invariant of `pair_trades`: queue entries are direction-pure and
instrument-homogeneous, at most one queue is non-empty, and the queues carry
exactly the net quantity processed so far. -/
def InvState (sym : String) (sec : SecurityType) (tot : Int)
    (bq sq : List StockTrade) : Prop :=
  (∀ x ∈ bq, goodBuy sym sec x) ∧ (∀ x ∈ sq, goodSell sym sec x) ∧
  (bq = [] ∨ sq = []) ∧ netQuantity bq + netQuantity sq = tot

/-! ## Sample data for witnesses and counterexamples -/

/-- A stock trade literal (fields as the broker parsers produce them). -/
def sampleTrade (sym : String) (q : Int) (d : Nat) (p : ℚ) : StockTrade :=
  { symbol := sym, security_type := .stock, date := d, quantity := q, price := p }

/-- A sample option contract. -/
def sampleOption : StockOption :=
  { symbol := "AAPL", otype := "call", strike := 330, odate := 50 }

/-- An option trade literal on `sampleOption`. -/
def sampleOptTrade (q : Int) (d : Nat) (p : ℚ) : StockTrade :=
  { symbol := "AAPL", security_type := .option, date := d, quantity := q, price := p,
    option := some sampleOption }

/-- Matcher input exercising a split whose remainder is pushed back while
the sell queue still holds another lot: sell 5 on day 1, sell 5 on day 2,
buy 3 on day 3 (leaves a remainder of the day-1 lot), buy 7 on day 4. -/
def fifoSample : List StockTrade :=
  [sampleTrade "AAPL" (-5) 1 1, sampleTrade "AAPL" (-5) 2 1,
   sampleTrade "AAPL" 3 3 1, sampleTrade "AAPL" 7 4 1]

/-- A synthetic (auto-close) trade, as `finish` fabricates them. -/
def syntheticSample : StockTrade :=
  { sampleOptTrade (-5) 3 0 with fake := true }

/-- An option contract group of two buys (net +5) that auto-close must
close across two lots. -/
def optionGroupSample : List StockTrade :=
  [sampleOptTrade 3 1 2, sampleOptTrade 2 2 2]

/-- A zero-quantity trade. -/
def zeroSample : StockTrade := sampleTrade "AAPL" 0 1 1

/-- A multi-trade unbalanced input (net +9): the sell of 4 emits one pair
against the buy of 10 mid-run, yet the run must end in the unbalanced
error with no pairs returned. -/
def unbalancedSample : List StockTrade :=
  [sampleTrade "AAPL" 10 1 1, sampleTrade "AAPL" (-4) 2 1, sampleTrade "AAPL" 3 3 1]

/-- An ambiguous-direction (confusion-marked) trade of quantity `q`. -/
def confusionSample (q : Int) : StockTrade :=
  { sampleOptTrade q 1 1 with trade_type := some "confusion" }

/-! ## Case lemmas for the match operation -/

/-- A buy meeting an equal-sized sell: no remainder, pair of the originals. -/
theorem matchT_buy_exact (t st : StockTrade) (ht : 0 < t.quantity)
    (hsum : t.quantity + st.quantity = 0) (hsym : t.symbol = st.symbol)
    (hsec : t.security_type = st.security_type) :
    matchT t st = .ok (none, mkTradePair t st) := by
  have hst : st.quantity < 0 := by omega
  have h2 : t.quantity * st.quantity < 0 := mul_neg_of_pos_of_neg ht hst
  simp [matchT, mkTradePairE, hsum, h2, hsym, hsec]

/-- A buy larger than the popped sell: the buy side is split, the remainder
keeps the positive balance. -/
theorem matchT_buy_more (t st : StockTrade) (ht : 0 < t.quantity) (hst : st.quantity < 0)
    (hsum : 0 < t.quantity + st.quantity) (hsym : t.symbol = st.symbol)
    (hnorm : symSetter t.symbol = t.symbol) (hsec : t.security_type = st.security_type) :
    matchT t st = .ok (some { t.copy with quantity := t.quantity + st.quantity },
      mkTradePair { t.copy with quantity := -st.quantity } st) := by
  have h1 : t.quantity + st.quantity ≠ 0 := by omega
  have h2 : 0 < (t.quantity + st.quantity) * t.quantity := mul_pos hsum ht
  have e : t.quantity - (t.quantity + st.quantity) = -st.quantity := by ring
  have h3 : -st.quantity * st.quantity < 0 := mul_neg_of_pos_of_neg (by omega) hst
  have hq0 : st.quantity ≠ 0 := by omega
  have hnorm' : symSetter st.symbol = st.symbol := by rw [← hsym]; exact hnorm
  simp [matchT, mkTradePairE, StockTrade.copy, h1, h2, e, h3, hnorm', hsym, hsec, hq0]

/-- A buy smaller than the popped sell: the sell side is split, the
remainder keeps the negative balance. -/
theorem matchT_buy_less (t st : StockTrade) (ht : 0 < t.quantity) (_hst : st.quantity < 0)
    (hsum : t.quantity + st.quantity < 0) (hsym : t.symbol = st.symbol)
    (hnorm : symSetter st.symbol = st.symbol) (hsec : t.security_type = st.security_type) :
    matchT t st = .ok (some { st.copy with quantity := t.quantity + st.quantity },
      mkTradePair t { st.copy with quantity := -t.quantity }) := by
  have h1 : t.quantity + st.quantity ≠ 0 := by omega
  have h2' : (t.quantity + st.quantity) * t.quantity < 0 := mul_neg_of_neg_of_pos hsum ht
  have h2 : ¬(0 < (t.quantity + st.quantity) * t.quantity) := by omega
  have e : st.quantity - (t.quantity + st.quantity) = -t.quantity := by ring
  have h3 : t.quantity * -t.quantity < 0 := mul_neg_of_pos_of_neg ht (by omega)
  have hq0 : t.quantity ≠ 0 := by omega
  simp [matchT, mkTradePairE, StockTrade.copy, h1, h2, e, h3, hnorm, hsym, hsec, hq0]

/-- A sell meeting an equal-sized buy: no remainder, pair of the originals. -/
theorem matchT_sell_exact (t bt : StockTrade) (ht : t.quantity < 0)
    (hsum : t.quantity + bt.quantity = 0) (hsym : t.symbol = bt.symbol)
    (hsec : t.security_type = bt.security_type) :
    matchT t bt = .ok (none, mkTradePair t bt) := by
  have hbt : 0 < bt.quantity := by omega
  have h2 : t.quantity * bt.quantity < 0 := mul_neg_of_neg_of_pos ht hbt
  simp [matchT, mkTradePairE, hsum, h2, hsym, hsec]

/-- A sell larger (in magnitude) than the popped buy: the sell side is
split, the remainder keeps the negative balance. -/
theorem matchT_sell_more (t bt : StockTrade) (ht : t.quantity < 0) (hbt : 0 < bt.quantity)
    (hsum : t.quantity + bt.quantity < 0) (hsym : t.symbol = bt.symbol)
    (hnorm : symSetter t.symbol = t.symbol) (hsec : t.security_type = bt.security_type) :
    matchT t bt = .ok (some { t.copy with quantity := t.quantity + bt.quantity },
      mkTradePair { t.copy with quantity := -bt.quantity } bt) := by
  have h1 : t.quantity + bt.quantity ≠ 0 := by omega
  have h2 : 0 < (t.quantity + bt.quantity) * t.quantity := mul_pos_of_neg_of_neg hsum ht
  have e : t.quantity - (t.quantity + bt.quantity) = -bt.quantity := by ring
  have h3 : -bt.quantity * bt.quantity < 0 := mul_neg_of_neg_of_pos (by omega) hbt
  have hq0 : bt.quantity ≠ 0 := by omega
  have hnorm' : symSetter bt.symbol = bt.symbol := by rw [← hsym]; exact hnorm
  simp [matchT, mkTradePairE, StockTrade.copy, h1, h2, e, h3, hnorm', hsym, hsec, hq0]

/-- A sell smaller (in magnitude) than the popped buy: the buy side is
split, the remainder keeps the positive balance. -/
theorem matchT_sell_less (t bt : StockTrade) (ht : t.quantity < 0) (_hbt : 0 < bt.quantity)
    (hsum : 0 < t.quantity + bt.quantity) (hsym : t.symbol = bt.symbol)
    (hnorm : symSetter bt.symbol = bt.symbol) (hsec : t.security_type = bt.security_type) :
    matchT t bt = .ok (some { bt.copy with quantity := t.quantity + bt.quantity },
      mkTradePair t { bt.copy with quantity := -t.quantity }) := by
  have h1 : t.quantity + bt.quantity ≠ 0 := by omega
  have h2' : (t.quantity + bt.quantity) * t.quantity < 0 := mul_neg_of_pos_of_neg hsum ht
  have h2 : ¬(0 < (t.quantity + bt.quantity) * t.quantity) := by omega
  have e : bt.quantity - (t.quantity + bt.quantity) = -t.quantity := by ring
  have h3 : t.quantity * -t.quantity < 0 := mul_neg_of_neg_of_pos ht (by omega)
  have hq0 : t.quantity ≠ 0 := by omega
  simp [matchT, mkTradePairE, StockTrade.copy, h1, h2, e, h3, hnorm, hsym, hsec, hq0]

/-- The price setter maps 0 to 0. -/
theorem priceSetter_zero : priceSetter 0 = 0 := by norm_num [priceSetter]

/-! ## Net-quantity bookkeeping -/

theorem netQuantity_nil : netQuantity [] = 0 := rfl

theorem netQuantity_cons (t : StockTrade) (l : List StockTrade) :
    netQuantity (t :: l) = t.quantity + netQuantity l := by
  simp [netQuantity]

theorem netQuantity_append (l1 l2 : List StockTrade) :
    netQuantity (l1 ++ l2) = netQuantity l1 + netQuantity l2 := by
  simp [netQuantity]

theorem netQuantity_nonneg (l : List StockTrade) (h : ∀ x ∈ l, 0 < x.quantity) :
    0 ≤ netQuantity l := by
  induction l with
  | nil => simp [netQuantity_nil]
  | cons a l ih =>
    have h1 := h a (by simp)
    have h2 := ih fun x hx => h x (by simp [hx])
    rw [netQuantity_cons]
    omega

theorem netQuantity_nonpos (l : List StockTrade) (h : ∀ x ∈ l, x.quantity < 0) :
    netQuantity l ≤ 0 := by
  induction l with
  | nil => simp [netQuantity_nil]
  | cons a l ih =>
    have h1 := h a (by simp)
    have h2 := ih fun x hx => h x (by simp [hx])
    rw [netQuantity_cons]
    omega

/-- A list of strictly positive quantities with zero net is empty. -/
theorem pos_net_zero_nil (l : List StockTrade) (h : ∀ x ∈ l, 0 < x.quantity)
    (hz : netQuantity l = 0) : l = [] := by
  cases l with
  | nil => rfl
  | cons a l =>
    exfalso
    have ha := h a (by simp)
    have hnn := netQuantity_nonneg l fun x hx => h x (by simp [hx])
    rw [netQuantity_cons] at hz
    omega

/-- A list of strictly negative quantities with zero net is empty. -/
theorem neg_net_zero_nil (l : List StockTrade) (h : ∀ x ∈ l, x.quantity < 0)
    (hz : netQuantity l = 0) : l = [] := by
  cases l with
  | nil => rfl
  | cons a l =>
    exfalso
    have ha := h a (by simp)
    have hnp := netQuantity_nonpos l fun x hx => h x (by simp [hx])
    rw [netQuantity_cons] at hz
    omega

/-! ## Store lemmas for the ref-and-store matcher -/

theorem StoreExt.rfl (s : Store) : StoreExt s s := ⟨[], by simp⟩

theorem StoreExt.trans {s1 s2 s3 : Store} (h1 : StoreExt s1 s2) (h2 : StoreExt s2 s3) :
    StoreExt s1 s3 := by
  obtain ⟨u, hu⟩ := h1
  obtain ⟨v, hv⟩ := h2
  exact ⟨u ++ v, by simp [hv, hu]⟩

theorem StoreExt.le_length {s s' : Store} (h : StoreExt s s') : s.length ≤ s'.length := by
  obtain ⟨u, rfl⟩ := h
  simp

theorem readS_append_left : ∀ (s l : Store) (r : Ref), r < s.length →
    readS (s ++ l) r = readS s r := by
  intro s
  induction s with
  | nil => intro l r h; simp at h
  | cons a s ih =>
    intro l r h
    cases r with
    | zero => rfl
    | succ n => simpa [readS] using ih l n (by simpa using h)

/-- Reads below the old length are unchanged by any extension. -/
theorem readS_mono {s s' : Store} (h : StoreExt s s') {r : Ref} (hr : r < s.length) :
    readS s' r = readS s r := by
  obtain ⟨u, rfl⟩ := h
  exact readS_append_left s u r hr

theorem readS_append_right : ∀ (s l : Store) (i : Nat),
    readS (s ++ l) (s.length + i) = readS l i := by
  intro s
  induction s with
  | nil => intro l i; simp [readS]
  | cons a s ih => intro l i; simpa [readS, Nat.succ_add] using ih l i

theorem set_append_right : ∀ (s l : Store) (i : Nat) (v : StockTrade),
    (s ++ l).set (s.length + i) v = s ++ l.set i v := by
  intro s
  induction s with
  | nil => intro l i v; simp
  | cons a s ih => intro l i v; simp [Nat.succ_add, ih l i v]

theorem writeQS_append (s l : Store) (i : Nat) (q : Int) :
    writeQS (s ++ l) (s.length + i) q = s ++ writeQS l i q := by
  unfold writeQS
  rw [readS_append_right, set_append_right]

/-! ## Coupling of the store matcher with the value matcher -/

theorem readS_append_zero (s l : Store) : readS (s ++ l) s.length = readS l 0 := by
  simpa using readS_append_right s l 0

theorem writeQS_append_zero (s l : Store) (q : Int) :
    writeQS (s ++ l) s.length q = s ++ writeQS l 0 q := by
  simpa using writeQS_append s l 0 q

theorem readS_cons_zero (x : StockTrade) (l : Store) : readS (x :: l) 0 = x := rfl

theorem readS_cons_succ (x : StockTrade) (l : Store) (n : Nat) :
    readS (x :: l) (n + 1) = readS l n := rfl

theorem writeQS_pair_one (x y : StockTrade) (q : Int) :
    writeQS [x, y] 1 q = [x, { y with quantity := q }] := rfl

theorem writeQS_pair_zero (x y : StockTrade) (q : Int) :
    writeQS [x, y] 0 q = [{ x with quantity := q }, y] := rfl

theorem matchS_spec (s : Store) (selfR tradeR : Ref)
    (hs : selfR < s.length) (ht : tradeR < s.length) :
    ∃ res s', matchS s selfR tradeR = (res, s') ∧ StoreExt s s' ∧
      MCpl s' res (matchT (readS s selfR) (readS s tradeR)) := by
  by_cases h1 : (readS s selfR).quantity + (readS s tradeR).quantity ≠ 0
  · by_cases h2 : ((readS s selfR).quantity + (readS s tradeR).quantity) *
        (readS s selfR).quantity > 0
    · have hw : matchS s selfR tradeR =
          (match mkTradePairE
              { (readS s selfR).copy with quantity :=
                  (readS s selfR).quantity -
                    ((readS s selfR).quantity + (readS s tradeR).quantity) }
              (readS s tradeR) with
            | .error e => (.error e,
                s ++ [{ (readS s selfR).copy with quantity :=
                    (readS s selfR).quantity + (readS s tradeR).quantity },
                  { (readS s selfR).copy with quantity :=
                    (readS s selfR).quantity -
                      ((readS s selfR).quantity + (readS s tradeR).quantity) }])
            | .ok p => (.ok (some s.length, p),
                s ++ [{ (readS s selfR).copy with quantity :=
                    (readS s selfR).quantity + (readS s tradeR).quantity },
                  { (readS s selfR).copy with quantity :=
                    (readS s selfR).quantity -
                      ((readS s selfR).quantity + (readS s tradeR).quantity) }])) := by
        simp only [matchS, allocS, if_pos h1, if_pos h2, List.append_assoc,
          List.singleton_append, List.length_append, List.length_cons, List.length_nil,
          Nat.zero_add, Nat.add_zero, writeQS_append, writeQS_append_zero,
          writeQS_pair_one, writeQS_pair_zero, readS_append_right, readS_cons_zero,
          readS_cons_succ, readS_append_left _ _ _ ht]
      rw [hw]
      cases hmk : mkTradePairE
          { (readS s selfR).copy with quantity :=
              (readS s selfR).quantity -
                ((readS s selfR).quantity + (readS s tradeR).quantity) }
          (readS s tradeR) with
      | error e =>
        refine ⟨.error e,
          s ++ [{ (readS s selfR).copy with quantity :=
              (readS s selfR).quantity + (readS s tradeR).quantity },
            { (readS s selfR).copy with quantity :=
              (readS s selfR).quantity -
                ((readS s selfR).quantity + (readS s tradeR).quantity) }],
          by rfl, ⟨_, rfl⟩, ?_⟩
        simp only [matchT, if_pos h1, if_pos h2]
        rw [hmk]
        simp [MCpl]
      | ok p =>
        refine ⟨.ok (some s.length, p),
          s ++ [{ (readS s selfR).copy with quantity :=
              (readS s selfR).quantity + (readS s tradeR).quantity },
            { (readS s selfR).copy with quantity :=
              (readS s selfR).quantity -
                ((readS s selfR).quantity + (readS s tradeR).quantity) }],
          by rfl, ⟨_, rfl⟩, ?_⟩
        simp only [matchT, if_pos h1, if_pos h2]
        rw [hmk]
        refine ⟨rfl, ?_, ?_⟩
        · simp
        · rw [readS_append_zero, readS_cons_zero]
    · have hw : matchS s selfR tradeR =
          (match mkTradePairE (readS s selfR)
              { (readS s tradeR).copy with quantity :=
                  (readS s tradeR).quantity -
                    ((readS s selfR).quantity + (readS s tradeR).quantity) } with
            | .error e => (.error e,
                s ++ [{ (readS s tradeR).copy with quantity :=
                    (readS s selfR).quantity + (readS s tradeR).quantity },
                  { (readS s tradeR).copy with quantity :=
                    (readS s tradeR).quantity -
                      ((readS s selfR).quantity + (readS s tradeR).quantity) }])
            | .ok p => (.ok (some s.length, p),
                s ++ [{ (readS s tradeR).copy with quantity :=
                    (readS s selfR).quantity + (readS s tradeR).quantity },
                  { (readS s tradeR).copy with quantity :=
                    (readS s tradeR).quantity -
                      ((readS s selfR).quantity + (readS s tradeR).quantity) }])) := by
        simp only [matchS, allocS, if_pos h1, if_neg h2, List.append_assoc,
          List.singleton_append, List.length_append, List.length_cons, List.length_nil,
          Nat.zero_add, Nat.add_zero, writeQS_append, writeQS_append_zero,
          writeQS_pair_one, writeQS_pair_zero, readS_append_right, readS_cons_zero,
          readS_cons_succ, readS_append_left _ _ _ hs]
      rw [hw]
      cases hmk : mkTradePairE (readS s selfR)
          { (readS s tradeR).copy with quantity :=
              (readS s tradeR).quantity -
                ((readS s selfR).quantity + (readS s tradeR).quantity) } with
      | error e =>
        refine ⟨.error e,
          s ++ [{ (readS s tradeR).copy with quantity :=
              (readS s selfR).quantity + (readS s tradeR).quantity },
            { (readS s tradeR).copy with quantity :=
              (readS s tradeR).quantity -
                ((readS s selfR).quantity + (readS s tradeR).quantity) }],
          by rfl, ⟨_, rfl⟩, ?_⟩
        simp only [matchT, if_pos h1, if_neg h2]
        rw [hmk]
        simp [MCpl]
      | ok p =>
        refine ⟨.ok (some s.length, p),
          s ++ [{ (readS s tradeR).copy with quantity :=
              (readS s selfR).quantity + (readS s tradeR).quantity },
            { (readS s tradeR).copy with quantity :=
              (readS s tradeR).quantity -
                ((readS s selfR).quantity + (readS s tradeR).quantity) }],
          by rfl, ⟨_, rfl⟩, ?_⟩
        simp only [matchT, if_pos h1, if_neg h2]
        rw [hmk]
        refine ⟨rfl, ?_, ?_⟩
        · simp
        · rw [readS_append_zero, readS_cons_zero]
  · have hw : matchS s selfR tradeR =
        (match mkTradePairE (readS s selfR) (readS s tradeR) with
          | .error e => (.error e, s)
          | .ok p => (.ok (none, p), s)) := by
      simp only [matchS, if_neg h1]
    rw [hw]
    cases hmk : mkTradePairE (readS s selfR) (readS s tradeR) with
    | error e =>
      refine ⟨.error e, s, by rfl, StoreExt.rfl s, ?_⟩
      simp only [matchT, if_neg h1]
      rw [hmk]
      simp [MCpl]
    | ok p =>
      refine ⟨.ok (none, p), s, by rfl, StoreExt.rfl s, ?_⟩
      simp only [matchT, if_neg h1]
      rw [hmk]
      exact ⟨rfl, trivial⟩

theorem buyLoopS_spec :
    ∀ (sq : List Ref) (s : Store) (tR : Ref) (ps : List TradePair),
      tR < s.length → (∀ r ∈ sq, r < s.length) →
      ∃ res s', buyLoopS s tR sq ps = (res, s') ∧ StoreExt s s' ∧
        BCpl s' res (buyLoop (readS s tR) (sq.map (readS s)) ps) := by
  intro sq
  induction sq with
  | nil =>
    intro s tR ps htR _
    refine ⟨.ok (some tR, [], ps), s, rfl, StoreExt.rfl s, ?_⟩
    simp only [List.map_nil, buyLoop]
    exact ⟨rfl, rfl, by simp, htR, rfl⟩
  | cons stR rest ih =>
    intro s tR ps htR hq
    have hstR : stR < s.length := hq stR (by simp)
    have hrest : ∀ r ∈ rest, r < s.length := fun r hr => hq r (by simp [hr])
    obtain ⟨mres, s1, hm, hext1, hcpl⟩ := matchS_spec s tR stR htR hstR
    have hmap1 : rest.map (readS s1) = rest.map (readS s) :=
      List.map_congr_left fun r hr => readS_mono hext1 (hrest r hr)
    cases hmt : matchT (readS s tR) (readS s stR) with
    | error e =>
      rw [hmt] at hcpl
      cases mres with
      | ok v => exact absurd hcpl (by simp [MCpl])
      | error e' =>
        have he : e' = e := hcpl
        subst he
        refine ⟨.error e', s1, ?_, hext1, ?_⟩
        · simp only [buyLoopS, hm]
        · simp only [List.map_cons, buyLoop, hmt]
          exact rfl
    | ok pr =>
      obtain ⟨rem, pair⟩ := pr
      rw [hmt] at hcpl
      cases mres with
      | error e' => exact absurd hcpl (by simp [MCpl])
      | ok v =>
        obtain ⟨remO, pair'⟩ := v
        have hpair : pair' = pair := hcpl.1
        subst hpair
        cases rem with
        | none =>
          cases remO with
          | some rR => exact absurd hcpl.2 (by simp [OptCpl])
          | none =>
            refine ⟨.ok (none, rest, ps ++ [pair']), s1, ?_, hext1, ?_⟩
            · simp only [buyLoopS, hm]
            · simp only [List.map_cons, buyLoop, hmt]
              exact ⟨rfl, hmap1, fun r hr => lt_of_lt_of_le (hrest r hr) hext1.le_length,
                trivial⟩
        | some v =>
          cases remO with
          | none => exact absurd hcpl.2 (by simp [OptCpl])
          | some rR =>
            obtain ⟨hrRlt, hrRv⟩ := hcpl.2
            by_cases hvneg : v.quantity < 0
            · refine ⟨.ok (none, rest ++ [rR], ps ++ [pair']), s1, ?_, hext1, ?_⟩
              · simp only [buyLoopS, hm]
                rw [if_pos (by rw [hrRv]; exact hvneg)]
              · simp only [List.map_cons, buyLoop, hmt]
                rw [if_pos hvneg]
                refine ⟨rfl, ?_, ?_, trivial⟩
                · rw [List.map_append, hmap1]
                  simp [hrRv]
                · intro r hr
                  rcases List.mem_append.mp hr with h | h
                  · exact lt_of_lt_of_le (hrest r h) hext1.le_length
                  · have : r = rR := by simpa using h
                    subst this
                    exact hrRlt
            · obtain ⟨res2, s2, hbl2, hext2, hcpl2⟩ :=
                ih s1 rR (ps ++ [pair']) hrRlt
                  (fun r hr => lt_of_lt_of_le (hrest r hr) hext1.le_length)
              refine ⟨res2, s2, ?_, StoreExt.trans hext1 hext2, ?_⟩
              · simp only [buyLoopS, hm]
                rw [if_neg (by rw [hrRv]; exact hvneg)]
                exact hbl2
              · simp only [List.map_cons, buyLoop, hmt]
                rw [if_neg hvneg]
                rw [hrRv, hmap1] at hcpl2
                exact hcpl2

theorem sellLoopS_spec :
    ∀ (bq : List Ref) (s : Store) (tR : Ref) (ps : List TradePair),
      tR < s.length → (∀ r ∈ bq, r < s.length) →
      ∃ res s', sellLoopS s tR bq ps = (res, s') ∧ StoreExt s s' ∧
        BCpl s' res (sellLoop (readS s tR) (bq.map (readS s)) ps) := by
  intro bq
  induction bq with
  | nil =>
    intro s tR ps htR _
    refine ⟨.ok (some tR, [], ps), s, rfl, StoreExt.rfl s, ?_⟩
    simp only [List.map_nil, sellLoop]
    exact ⟨rfl, rfl, by simp, htR, rfl⟩
  | cons btR rest ih =>
    intro s tR ps htR hq
    have hbtR : btR < s.length := hq btR (by simp)
    have hrest : ∀ r ∈ rest, r < s.length := fun r hr => hq r (by simp [hr])
    obtain ⟨mres, s1, hm, hext1, hcpl⟩ := matchS_spec s tR btR htR hbtR
    have hmap1 : rest.map (readS s1) = rest.map (readS s) :=
      List.map_congr_left fun r hr => readS_mono hext1 (hrest r hr)
    cases hmt : matchT (readS s tR) (readS s btR) with
    | error e =>
      rw [hmt] at hcpl
      cases mres with
      | ok v => exact absurd hcpl (by simp [MCpl])
      | error e' =>
        have he : e' = e := hcpl
        subst he
        refine ⟨.error e', s1, ?_, hext1, ?_⟩
        · simp only [sellLoopS, hm]
        · simp only [List.map_cons, sellLoop, hmt]
          exact rfl
    | ok pr =>
      obtain ⟨rem, pair⟩ := pr
      rw [hmt] at hcpl
      cases mres with
      | error e' => exact absurd hcpl (by simp [MCpl])
      | ok v =>
        obtain ⟨remO, pair'⟩ := v
        have hpair : pair' = pair := hcpl.1
        subst hpair
        cases rem with
        | none =>
          cases remO with
          | some rR => exact absurd hcpl.2 (by simp [OptCpl])
          | none =>
            refine ⟨.ok (none, rest, ps ++ [pair']), s1, ?_, hext1, ?_⟩
            · simp only [sellLoopS, hm]
            · simp only [List.map_cons, sellLoop, hmt]
              exact ⟨rfl, hmap1, fun r hr => lt_of_lt_of_le (hrest r hr) hext1.le_length,
                trivial⟩
        | some v =>
          cases remO with
          | none => exact absurd hcpl.2 (by simp [OptCpl])
          | some rR =>
            obtain ⟨hrRlt, hrRv⟩ := hcpl.2
            by_cases hvpos : v.quantity > 0
            · refine ⟨.ok (none, rest ++ [rR], ps ++ [pair']), s1, ?_, hext1, ?_⟩
              · simp only [sellLoopS, hm]
                rw [if_pos (by rw [hrRv]; exact hvpos)]
              · simp only [List.map_cons, sellLoop, hmt]
                rw [if_pos hvpos]
                refine ⟨rfl, ?_, ?_, trivial⟩
                · rw [List.map_append, hmap1]
                  simp [hrRv]
                · intro r hr
                  rcases List.mem_append.mp hr with h | h
                  · exact lt_of_lt_of_le (hrest r h) hext1.le_length
                  · have : r = rR := by simpa using h
                    subst this
                    exact hrRlt
            · obtain ⟨res2, s2, hsl2, hext2, hcpl2⟩ :=
                ih s1 rR (ps ++ [pair']) hrRlt
                  (fun r hr => lt_of_lt_of_le (hrest r hr) hext1.le_length)
              refine ⟨res2, s2, ?_, StoreExt.trans hext1 hext2, ?_⟩
              · simp only [sellLoopS, hm]
                rw [if_neg (by rw [hrRv]; exact hvpos)]
                exact hsl2
              · simp only [List.map_cons, sellLoop, hmt]
                rw [if_neg hvpos]
                rw [hrRv, hmap1] at hcpl2
                exact hcpl2

theorem pairGoS_spec :
    ∀ (ids : List Ref) (s : Store) (bq sq : List Ref) (ps : List TradePair),
      (∀ r ∈ ids, r < s.length) → (∀ r ∈ bq, r < s.length) → (∀ r ∈ sq, r < s.length) →
      ∃ res s', pairGoS s ids bq sq ps = (res, s') ∧ StoreExt s s' ∧
        GCpl s' res
          (pairGo (ids.map (readS s)) (bq.map (readS s)) (sq.map (readS s)) ps) := by
  intro ids
  induction ids with
  | nil =>
    intro s bq sq ps _ hbq hsq
    refine ⟨.ok (bq, sq, ps), s, rfl, StoreExt.rfl s, ?_⟩
    simp only [List.map_nil, pairGo]
    exact ⟨rfl, rfl, rfl, hbq, hsq⟩
  | cons tR ids ih =>
    intro s bq sq ps hids hbq hsq
    have htR : tR < s.length := hids tR (by simp)
    have hids' : ∀ r ∈ ids, r < s.length := fun r hr => hids r (by simp [hr])
    by_cases hcond : (readS s tR).quantity > 0
    · -- buy branch
      obtain ⟨res1, s1, hbl, hext1, hcpl⟩ := buyLoopS_spec sq s tR ps htR hsq
      have hmapb : bq.map (readS s1) = bq.map (readS s) :=
        List.map_congr_left fun r hr => readS_mono hext1 (hbq r hr)
      have hmapi : ids.map (readS s1) = ids.map (readS s) :=
        List.map_congr_left fun r hr => readS_mono hext1 (hids' r hr)
      have hbq1 : ∀ r ∈ bq, r < s1.length :=
        fun r hr => lt_of_lt_of_le (hbq r hr) hext1.le_length
      have hids1 : ∀ r ∈ ids, r < s1.length :=
        fun r hr => lt_of_lt_of_le (hids' r hr) hext1.le_length
      cases hblv : buyLoop (readS s tR) (sq.map (readS s)) ps with
      | error e =>
        rw [hblv] at hcpl
        cases res1 with
        | ok v => exact absurd hcpl (by simp [BCpl])
        | error e' =>
          have he : e' = e := hcpl
          subst he
          refine ⟨.error e', s1, ?_, hext1, ?_⟩
          · simp only [pairGoS, if_pos hcond, hbl]
          · simp only [List.map_cons, pairGo, if_pos hcond, hblv]
            exact rfl
      | ok v =>
        obtain ⟨rem, sq', ps'⟩ := v
        rw [hblv] at hcpl
        cases res1 with
        | error e' => exact absurd hcpl (by simp [BCpl])
        | ok w =>
          obtain ⟨remR, sqR, psR⟩ := w
          obtain ⟨hps, hmapq, hbnd, hocpl⟩ := hcpl
          subst hps
          cases rem with
          | none =>
            cases remR with
            | some rR => exact absurd hocpl (by simp [OptCpl])
            | none =>
              obtain ⟨res2, s2, hgo2, hext2, hcpl2⟩ := ih s1 bq sqR psR hids1 hbq1 hbnd
              rw [hmapi, hmapb, hmapq] at hcpl2
              refine ⟨res2, s2, ?_, StoreExt.trans hext1 hext2, ?_⟩
              · simp only [pairGoS, if_pos hcond, hbl]
                exact hgo2
              · simp only [List.map_cons, pairGo, if_pos hcond, hblv]
                exact hcpl2
          | some r =>
            cases remR with
            | none => exact absurd hocpl (by simp [OptCpl])
            | some rR =>
              obtain ⟨hrRlt, hrRv⟩ := hocpl
              obtain ⟨res2, s2, hgo2, hext2, hcpl2⟩ :=
                ih s1 (bq ++ [rR]) sqR psR hids1
                  (fun x hx => by
                    rcases List.mem_append.mp hx with h | h
                    · exact hbq1 x h
                    · have : x = rR := by simpa using h
                      subst this
                      exact hrRlt)
                  hbnd
              rw [hmapi, hmapq, List.map_append, hmapb] at hcpl2
              simp only [List.map_cons, List.map_nil, hrRv] at hcpl2
              refine ⟨res2, s2, ?_, StoreExt.trans hext1 hext2, ?_⟩
              · simp only [pairGoS, if_pos hcond, hbl]
                exact hgo2
              · simp only [List.map_cons, pairGo, if_pos hcond, hblv]
                exact hcpl2
    · -- sell branch
      obtain ⟨res1, s1, hsl, hext1, hcpl⟩ := sellLoopS_spec bq s tR ps htR hbq
      have hmaps : sq.map (readS s1) = sq.map (readS s) :=
        List.map_congr_left fun r hr => readS_mono hext1 (hsq r hr)
      have hmapi : ids.map (readS s1) = ids.map (readS s) :=
        List.map_congr_left fun r hr => readS_mono hext1 (hids' r hr)
      have hsq1 : ∀ r ∈ sq, r < s1.length :=
        fun r hr => lt_of_lt_of_le (hsq r hr) hext1.le_length
      have hids1 : ∀ r ∈ ids, r < s1.length :=
        fun r hr => lt_of_lt_of_le (hids' r hr) hext1.le_length
      cases hslv : sellLoop (readS s tR) (bq.map (readS s)) ps with
      | error e =>
        rw [hslv] at hcpl
        cases res1 with
        | ok v => exact absurd hcpl (by simp [BCpl])
        | error e' =>
          have he : e' = e := hcpl
          subst he
          refine ⟨.error e', s1, ?_, hext1, ?_⟩
          · simp only [pairGoS, if_neg hcond, hsl]
          · simp only [List.map_cons, pairGo, if_neg hcond, hslv]
            exact rfl
      | ok v =>
        obtain ⟨rem, bq', ps'⟩ := v
        rw [hslv] at hcpl
        cases res1 with
        | error e' => exact absurd hcpl (by simp [BCpl])
        | ok w =>
          obtain ⟨remR, bqR, psR⟩ := w
          obtain ⟨hps, hmapq, hbnd, hocpl⟩ := hcpl
          subst hps
          cases rem with
          | none =>
            cases remR with
            | some rR => exact absurd hocpl (by simp [OptCpl])
            | none =>
              obtain ⟨res2, s2, hgo2, hext2, hcpl2⟩ := ih s1 bqR sq psR hids1 hbnd hsq1
              rw [hmapi, hmaps, hmapq] at hcpl2
              refine ⟨res2, s2, ?_, StoreExt.trans hext1 hext2, ?_⟩
              · simp only [pairGoS, if_neg hcond, hsl]
                exact hgo2
              · simp only [List.map_cons, pairGo, if_neg hcond, hslv]
                exact hcpl2
          | some r =>
            cases remR with
            | none => exact absurd hocpl (by simp [OptCpl])
            | some rR =>
              obtain ⟨hrRlt, hrRv⟩ := hocpl
              obtain ⟨res2, s2, hgo2, hext2, hcpl2⟩ :=
                ih s1 bqR (sq ++ [rR]) psR hids1 hbnd
                  (fun x hx => by
                    rcases List.mem_append.mp hx with h | h
                    · exact hsq1 x h
                    · have : x = rR := by simpa using h
                      subst this
                      exact hrRlt)
              rw [hmapi, hmapq, List.map_append, hmaps] at hcpl2
              simp only [List.map_cons, List.map_nil, hrRv] at hcpl2
              refine ⟨res2, s2, ?_, StoreExt.trans hext1 hext2, ?_⟩
              · simp only [pairGoS, if_neg hcond, hsl]
                exact hgo2
              · simp only [List.map_cons, pairGo, if_neg hcond, hslv]
                exact hcpl2

theorem pair_tradesS_spec (s : Store) (ids : List Ref)
    (h : ∀ r ∈ ids, r < s.length) :
    ∃ res s', pair_tradesS s ids = (res, s') ∧ StoreExt s s' ∧
      res = pair_trades (ids.map (readS s)) := by
  obtain ⟨res1, s1, hgo, hext, hcpl⟩ :=
    pairGoS_spec ids s [] [] [] h (by simp) (by simp)
  cases hgov : pairGo (ids.map (readS s)) [] [] [] with
  | error e =>
    simp only [List.map_nil] at hcpl
    rw [hgov] at hcpl
    cases res1 with
    | ok v => exact absurd hcpl (by simp [GCpl])
    | error e' =>
      have he : e' = e := hcpl
      subst he
      refine ⟨.error e', s1, ?_, hext, ?_⟩
      · simp only [pair_tradesS, hgo]
      · simp only [pair_trades, hgov]
  | ok v =>
    obtain ⟨bqv, sqv, psv⟩ := v
    simp only [List.map_nil] at hcpl
    rw [hgov] at hcpl
    cases res1 with
    | error e' => exact absurd hcpl (by simp [GCpl])
    | ok w =>
      obtain ⟨bqR, sqR, psR⟩ := w
      obtain ⟨hps, hmb, hms, _, _⟩ := hcpl
      subst hps
      have hbqe : bqR = [] ↔ bqv = [] := by
        constructor
        · intro hh; rw [← hmb, hh]; simp
        · intro hh; rw [hh] at hmb; exact List.map_eq_nil_iff.mp hmb
      have hsqe : sqR = [] ↔ sqv = [] := by
        constructor
        · intro hh; rw [← hms, hh]; simp
        · intro hh; rw [hh] at hms; exact List.map_eq_nil_iff.mp hms
      by_cases hne : sqR ≠ [] ∨ bqR ≠ []
      · have hne' : sqv ≠ [] ∨ bqv ≠ [] := by
          rcases hne with hh | hh
          · exact Or.inl fun hx => hh (hsqe.mpr hx)
          · exact Or.inr fun hx => hh (hbqe.mpr hx)
        refine ⟨.error (unbalancedMsg ids.length), s1, ?_, hext, ?_⟩
        · simp only [pair_tradesS, hgo]
          rw [if_pos hne]
        · simp only [pair_trades, hgov]
          rw [if_pos hne']
          simp
      · have hne' : ¬(sqv ≠ [] ∨ bqv ≠ []) := by
          push_neg at hne ⊢
          exact ⟨hsqe.mp hne.1, hbqe.mp hne.2⟩
        refine ⟨.ok psR, s1, ?_, hext, ?_⟩
        · simp only [pair_tradesS, hgo]
          rw [if_neg hne]
        · simp only [pair_trades, hgov]
          rw [if_neg hne']

/-! ## Queue-loop invariants -/

/-- Behaviour of the buy-side inner loop on a direction-pure,
instrument-homogeneous sell queue: it never raises, queue entries stay
sell-side and homogeneous, and quantity is conserved: either the buy is
fully consumed (possibly leaving a tail-appended remainder in the queue),
or the queue empties and a positive remainder is returned. -/
theorem buyLoop_spec (sym : String) (sec : SecurityType) (hnorm : symSetter sym = sym) :
    ∀ (sq : List StockTrade) (t : StockTrade) (ps : List TradePair),
      goodBuy sym sec t → (∀ x ∈ sq, goodSell sym sec x) →
      ∃ rem sq' ps',
        buyLoop t sq ps = .ok (rem, sq', ps') ∧
        (∀ x ∈ sq', goodSell sym sec x) ∧
        ((∃ r, rem = some r ∧ goodBuy sym sec r ∧ sq' = [] ∧
            r.quantity = netQuantity sq + t.quantity) ∨
          (rem = none ∧ sq ≠ [] ∧ netQuantity sq' = netQuantity sq + t.quantity)) := by
  intro sq
  induction sq with
  | nil =>
    intro t ps hgb _
    exact ⟨some t, [], ps, rfl, by simp,
      Or.inl ⟨t, rfl, hgb, rfl, by simp [netQuantity_nil]⟩⟩
  | cons st rest ih =>
    intro t ps hgb hsq
    obtain ⟨ht, htsym, htsec⟩ := hgb
    obtain ⟨hst, hstsym, hstsec⟩ := hsq st (by simp)
    have hrest : ∀ x ∈ rest, goodSell sym sec x := fun x hx => hsq x (by simp [hx])
    have hsym2 : t.symbol = st.symbol := by rw [htsym, hstsym]
    have hsec2 : t.security_type = st.security_type := by rw [htsec, hstsec]
    have hcons := netQuantity_cons st rest
    rcases lt_trichotomy (t.quantity + st.quantity) 0 with hlt | heq | hgt
    · -- popped sell bigger: remainder appended at the tail of the queue
      rw [buyLoop, matchT_buy_less t st ht hst hlt hsym2 (by rw [hstsym]; exact hnorm) hsec2]
      refine ⟨none, rest ++ [{ st.copy with quantity := t.quantity + st.quantity }],
        ps ++ [mkTradePair t { st.copy with quantity := -t.quantity }],
        by simp [hlt], ?_, Or.inr ⟨rfl, by simp, ?_⟩⟩
      · intro x hx
        rcases List.mem_append.mp hx with h | h
        · exact hrest x h
        · have hx2 : x = { st.copy with quantity := t.quantity + st.quantity } := by
            simpa using h
          subst hx2
          exact ⟨by simpa using hlt, by simp [StockTrade.copy, hstsym, hnorm],
            by simp [StockTrade.copy, hstsec]⟩
      · rw [netQuantity_append, netQuantity_cons]
        simp [netQuantity_nil]
        omega
    · -- exact consumption
      rw [buyLoop, matchT_buy_exact t st ht heq hsym2 hsec2]
      exact ⟨none, rest, ps ++ [mkTradePair t st], by simp, hrest,
        Or.inr ⟨rfl, by simp, by omega⟩⟩
    · -- buy bigger: loop on with the positive remainder
      rw [buyLoop, matchT_buy_more t st ht hst hgt hsym2 (by rw [htsym]; exact hnorm) hsec2]
      have hgbr : goodBuy sym sec { t.copy with quantity := t.quantity + st.quantity } :=
        ⟨by simpa using hgt, by simp [StockTrade.copy, htsym, hnorm],
          by simp [StockTrade.copy, htsec]⟩
      obtain ⟨rem, sq', ps', hbl, hsq', hcase⟩ :=
        ih { t.copy with quantity := t.quantity + st.quantity }
          (ps ++ [mkTradePair { t.copy with quantity := -st.quantity } st]) hgbr hrest
      have hremnn : ¬({ t.copy with quantity := t.quantity + st.quantity }
          : StockTrade).quantity < 0 := by simpa using by omega
      refine ⟨rem, sq', ps', ?_, hsq', ?_⟩
      · simpa [hremnn] using hbl
      · rcases hcase with ⟨r, hr, hgbr2, hsq0, hq⟩ | ⟨hr, _, hq⟩
        · refine Or.inl ⟨r, hr, hgbr2, hsq0, ?_⟩
          simp at hq
          omega
        · refine Or.inr ⟨hr, by simp, ?_⟩
          simp at hq
          omega

/-- The confusion-resolution step leaves a single-trade group (nonzero
quantity) unchanged: neither balance condition can fire. -/
theorem resolveConfusion_single (t : StockTrade) (hq : t.quantity ≠ 0) :
    resolveConfusion [t] = [t] := by
  cases h : isConfusion t <;>
    simp [resolveConfusion, netNormal, netConfusion, h, hq]

/-- Behaviour of the sell-side inner loop on a direction-pure,
instrument-homogeneous buy queue, mirroring `buyLoop_spec`. -/
theorem sellLoop_spec (sym : String) (sec : SecurityType) (hnorm : symSetter sym = sym) :
    ∀ (bq : List StockTrade) (t : StockTrade) (ps : List TradePair),
      goodSell sym sec t → (∀ x ∈ bq, goodBuy sym sec x) →
      ∃ rem bq' ps',
        sellLoop t bq ps = .ok (rem, bq', ps') ∧
        (∀ x ∈ bq', goodBuy sym sec x) ∧
        ((∃ r, rem = some r ∧ goodSell sym sec r ∧ bq' = [] ∧
            r.quantity = netQuantity bq + t.quantity) ∨
          (rem = none ∧ bq ≠ [] ∧ netQuantity bq' = netQuantity bq + t.quantity)) := by
  intro bq
  induction bq with
  | nil =>
    intro t ps hgs _
    exact ⟨some t, [], ps, rfl, by simp,
      Or.inl ⟨t, rfl, hgs, rfl, by simp [netQuantity_nil]⟩⟩
  | cons bt rest ih =>
    intro t ps hgs hbq
    obtain ⟨ht, htsym, htsec⟩ := hgs
    obtain ⟨hbt, hbtsym, hbtsec⟩ := hbq bt (by simp)
    have hrest : ∀ x ∈ rest, goodBuy sym sec x := fun x hx => hbq x (by simp [hx])
    have hsym2 : t.symbol = bt.symbol := by rw [htsym, hbtsym]
    have hsec2 : t.security_type = bt.security_type := by rw [htsec, hbtsec]
    have hcons := netQuantity_cons bt rest
    rcases lt_trichotomy (t.quantity + bt.quantity) 0 with hlt | heq | hgt
    · -- sell bigger: loop on with the negative remainder
      rw [sellLoop, matchT_sell_more t bt ht hbt hlt hsym2 (by rw [htsym]; exact hnorm) hsec2]
      have hgsr : goodSell sym sec { t.copy with quantity := t.quantity + bt.quantity } :=
        ⟨by simpa using hlt, by simp [StockTrade.copy, htsym, hnorm],
          by simp [StockTrade.copy, htsec]⟩
      obtain ⟨rem, bq', ps', hsl, hbq', hcase⟩ :=
        ih { t.copy with quantity := t.quantity + bt.quantity }
          (ps ++ [mkTradePair { t.copy with quantity := -bt.quantity } bt]) hgsr hrest
      have hremnp : ¬({ t.copy with quantity := t.quantity + bt.quantity }
          : StockTrade).quantity > 0 := by simpa using by omega
      refine ⟨rem, bq', ps', ?_, hbq', ?_⟩
      · simpa [hremnp] using hsl
      · rcases hcase with ⟨r, hr, hgsr2, hbq0, hq⟩ | ⟨hr, _, hq⟩
        · refine Or.inl ⟨r, hr, hgsr2, hbq0, ?_⟩
          simp at hq
          omega
        · refine Or.inr ⟨hr, by simp, ?_⟩
          simp at hq
          omega
    · -- exact consumption
      rw [sellLoop, matchT_sell_exact t bt ht heq hsym2 hsec2]
      exact ⟨none, rest, ps ++ [mkTradePair t bt], by simp, hrest,
        Or.inr ⟨rfl, by simp, by omega⟩⟩
    · -- popped buy bigger: remainder appended at the tail of the queue
      rw [sellLoop, matchT_sell_less t bt ht hbt hgt hsym2 (by rw [hbtsym]; exact hnorm) hsec2]
      refine ⟨none, rest ++ [{ bt.copy with quantity := t.quantity + bt.quantity }],
        ps ++ [mkTradePair t { bt.copy with quantity := -t.quantity }],
        by simp [hgt], ?_, Or.inr ⟨rfl, by simp, ?_⟩⟩
      · intro x hx
        rcases List.mem_append.mp hx with h | h
        · exact hrest x h
        · have hx2 : x = { bt.copy with quantity := t.quantity + bt.quantity } := by
            simpa using h
          subst hx2
          exact ⟨by simpa using hgt, by simp [StockTrade.copy, hbtsym, hnorm],
            by simp [StockTrade.copy, hbtsec]⟩
      · rw [netQuantity_append, netQuantity_cons]
        simp [netQuantity_nil]
        omega

/-- The main-loop invariant is preserved: over nonzero-quantity,
instrument-homogeneous input the matcher never raises mid-loop, queues stay
direction-pure with at most one non-empty, and the queues hold exactly the
net processed quantity. -/
theorem pairGo_spec (sym : String) (sec : SecurityType) (hnorm : symSetter sym = sym) :
    ∀ (ts bq sq : List StockTrade) (ps : List TradePair) (tot : Int),
      (∀ x ∈ ts, x.quantity ≠ 0 ∧ x.symbol = sym ∧ x.security_type = sec) →
      InvState sym sec tot bq sq →
      ∃ bq' sq' ps', pairGo ts bq sq ps = .ok (bq', sq', ps') ∧
        InvState sym sec (tot + netQuantity ts) bq' sq' := by
  intro ts
  induction ts with
  | nil =>
    intro bq sq ps tot _ hinv
    exact ⟨bq, sq, ps, rfl, by simpa [netQuantity_nil] using hinv⟩
  | cons t ts ih =>
    intro bq sq ps tot hts hinv
    obtain ⟨hbq, hsq, hone, hsum⟩ := hinv
    obtain ⟨hq0, hsymt, hsect⟩ := hts t (by simp)
    have hts' : ∀ x ∈ ts, x.quantity ≠ 0 ∧ x.symbol = sym ∧ x.security_type = sec :=
      fun x hx => hts x (by simp [hx])
    have hcons := netQuantity_cons t ts
    rcases lt_or_gt_of_ne hq0 with hneg | hpos
    · -- sell branch
      have hcond : ¬t.quantity > 0 := by omega
      obtain ⟨rem, bq', ps', hsl, hbq', hcase⟩ :=
        sellLoop_spec sym sec hnorm bq t ps ⟨hneg, hsymt, hsect⟩ hbq
      rcases hcase with ⟨r, hr, hgsr, hbq0, hqr⟩ | ⟨hr, hne, hq⟩
      · subst hr
        have hinvNew : InvState sym sec (tot + t.quantity) bq' (sq ++ [r]) := by
          subst hbq0
          refine ⟨by simp, ?_, Or.inl rfl, ?_⟩
          · intro x hx
            rcases List.mem_append.mp hx with h | h
            · exact hsq x h
            · have hx2 : x = r := by simpa using h
              subst hx2
              exact hgsr
          · rw [netQuantity_append, netQuantity_cons]
            simp [netQuantity_nil]
            omega
        obtain ⟨bq2, sq2, ps2, hgo, hinv2⟩ :=
          ih bq' (sq ++ [r]) ps' (tot + t.quantity) hts' hinvNew
        refine ⟨bq2, sq2, ps2, ?_, ?_⟩
        · rw [pairGo, if_neg hcond, hsl]
          exact hgo
        · have e : tot + t.quantity + netQuantity ts = tot + netQuantity (t :: ts) := by
            omega
          rwa [e] at hinv2
      · subst hr
        have hinvNew : InvState sym sec (tot + t.quantity) bq' sq := by
          have hsq0 : sq = [] := by
            rcases hone with h | h
            · exact absurd h hne
            · exact h
          subst hsq0
          exact ⟨hbq', by simp, Or.inr rfl, by have h0 := netQuantity_nil; omega⟩
        obtain ⟨bq2, sq2, ps2, hgo, hinv2⟩ :=
          ih bq' sq ps' (tot + t.quantity) hts' hinvNew
        refine ⟨bq2, sq2, ps2, ?_, ?_⟩
        · rw [pairGo, if_neg hcond, hsl]
          exact hgo
        · have e : tot + t.quantity + netQuantity ts = tot + netQuantity (t :: ts) := by
            omega
          rwa [e] at hinv2
    · -- buy branch
      obtain ⟨rem, sq', ps', hbl, hsq', hcase⟩ :=
        buyLoop_spec sym sec hnorm sq t ps ⟨hpos, hsymt, hsect⟩ hsq
      rcases hcase with ⟨r, hr, hgbr, hsq0, hqr⟩ | ⟨hr, hne, hq⟩
      · subst hr
        have hinvNew : InvState sym sec (tot + t.quantity) (bq ++ [r]) sq' := by
          subst hsq0
          refine ⟨?_, by simp, Or.inr rfl, ?_⟩
          · intro x hx
            rcases List.mem_append.mp hx with h | h
            · exact hbq x h
            · have hx2 : x = r := by simpa using h
              subst hx2
              exact hgbr
          · rw [netQuantity_append, netQuantity_cons]
            simp [netQuantity_nil]
            omega
        obtain ⟨bq2, sq2, ps2, hgo, hinv2⟩ :=
          ih (bq ++ [r]) sq' ps' (tot + t.quantity) hts' hinvNew
        refine ⟨bq2, sq2, ps2, ?_, ?_⟩
        · rw [pairGo, if_pos hpos, hbl]
          exact hgo
        · have e : tot + t.quantity + netQuantity ts = tot + netQuantity (t :: ts) := by
            omega
          rwa [e] at hinv2
      · subst hr
        have hinvNew : InvState sym sec (tot + t.quantity) bq sq' := by
          have hbq0 : bq = [] := by
            rcases hone with h | h
            · exact h
            · exact absurd h hne
          subst hbq0
          exact ⟨by simp, hsq', Or.inl rfl, by have h0 := netQuantity_nil; omega⟩
        obtain ⟨bq2, sq2, ps2, hgo, hinv2⟩ :=
          ih bq sq' ps' (tot + t.quantity) hts' hinvNew
        refine ⟨bq2, sq2, ps2, ?_, ?_⟩
        · rw [pairGo, if_pos hpos, hbl]
          exact hgo
        · have e : tot + t.quantity + netQuantity ts = tot + netQuantity (t :: ts) := by
            omega
          rwa [e] at hinv2

/-! ## Claim theorems -/

/-- **C6** (confirmed): `is_short_term` (`short`) is true iff the closing
date is strictly before the opening date plus 366 days; a pair opened
2023-01-01 and closed 2024-01-01 (365 days later) is short-term, and one
closed 2024-01-02 (366 days later) is long-term. -/
theorem c6_short_term_boundary :
    (∀ a b : StockTrade,
      (mkTradePair a b).short = true ↔
        (mkTradePair a b).date2 < (mkTradePair a b).date1 + 366) ∧
    (mkTradePair (sampleTrade "AAPL" 10 (toOrdinal 2023 1 1) 5)
      (sampleTrade "AAPL" (-10) (toOrdinal 2024 1 1) 7)).short = true ∧
    (mkTradePair (sampleTrade "AAPL" 10 (toOrdinal 2023 1 1) 5)
      (sampleTrade "AAPL" (-10) (toOrdinal 2024 1 2) 7)).short = false := by
  refine ⟨fun a b => ?_, by decide, by decide⟩
  simp [mkTradePair]

/-- **C7** (confirmed): a pair's `profit` is `-(a.amount + b.amount)` over
the two trades as passed in; `price` is stored as a magnitude by its
setter; buy 10 @ 5 then sell 10 @ 7 yields profit 20, and sell 10 @ 7 then
buy 10 @ 5 yields the symmetric 20. -/
theorem c7_profit_formula :
    (∀ a b : StockTrade, a.quantity * b.quantity < 0 →
      (mkTradePair a b).profit = -(a.amount + b.amount)) ∧
    (∀ v : ℚ, priceSetter v = |v|) ∧
    (mkTradePair (sampleTrade "AAPL" 10 1 5) (sampleTrade "AAPL" (-10) 2 7)).profit = 20 ∧
    (mkTradePair (sampleTrade "AAPL" (-10) 1 7) (sampleTrade "AAPL" 10 2 5)).profit = 20 := by
  refine ⟨fun a b _ => ?_, fun v => ?_,
    by simp [mkTradePair, sampleTrade, StockTrade.amount]; norm_num,
    by simp [mkTradePair, sampleTrade, StockTrade.amount]; norm_num⟩
  · simp [mkTradePair]
  · unfold priceSetter
    split_ifs with h
    · exact (abs_of_neg h).symm
    · exact (abs_of_nonneg (not_lt.mp h)).symm

/-- **C7** witness: the profit formula applied at the concrete
buy-10-at-5 / sell-10-at-7 pair. -/
theorem c7_profit_formula_witness :
    (sampleTrade "AAPL" 10 1 5).quantity * (sampleTrade "AAPL" (-10) 2 7).quantity < 0 ∧
    (mkTradePair (sampleTrade "AAPL" 10 1 5) (sampleTrade "AAPL" (-10) 2 7)).profit =
      -((sampleTrade "AAPL" 10 1 5).amount + (sampleTrade "AAPL" (-10) 2 7).amount) :=
  ⟨by decide, c7_profit_formula.1 _ _ (by decide)⟩

/-- **C2** (code_bug): `copy` preserves `price`, `date`, `option` (and the
not-yet-reassigned `quantity`), but it does NOT preserve the synthetic
marker: `fake` is reset to `false` on every copy, so a remainder split off
a synthetic trade is no longer marked synthetic — contradicting the
propagation `TradePair.fake = t1.fake or t2.fake` the source relies on.
Evaluated at a synthetic trade (`fake = true`). -/
theorem c2_copy_resets_fake :
    (∀ t : StockTrade, t.copy.fake = false) ∧
    syntheticSample.fake = true ∧
    syntheticSample.copy.fake = false ∧
    syntheticSample.copy.price = syntheticSample.price ∧
    syntheticSample.copy.date = syntheticSample.date ∧
    syntheticSample.copy.option = syntheticSample.option ∧
    syntheticSample.copy.quantity = syntheticSample.quantity :=
  ⟨fun _ => rfl, by decide, by decide, by decide, by decide, by decide, by decide⟩

/-- **C4** (counterexample): the unmatched-position error does not name the
instrument: two single-trade inputs on different symbols produce the very
same error message (it names only the input trade count). -/
theorem c4_counterexample :
    (sampleTrade "AAPL" 10 1 1).symbol ≠ (sampleTrade "MSFT" 10 1 1).symbol ∧
    pair_trades [sampleTrade "AAPL" 10 1 1] = .error (unbalancedMsg 1) ∧
    pair_trades [sampleTrade "MSFT" 10 1 1] = .error (unbalancedMsg 1) :=
  ⟨by decide, rfl, rfl⟩

/-- **C1** (counterexample): in `fifoSample` the buy of 3 splits the day-1
sell lot and the negative remainder is pushed to the BACK of the sell
queue, behind the still-queued day-2 lot; the later buy of 7 therefore
consumes the day-2 lot first (the second emitted pair opens on day 2, not
day 1) and the day-1 remainder only last — contradicting the claim that
the pushed-back remainder becomes the new head and is consumed before any
other queued lot. -/
theorem c1_counterexample :
    (pairsOf (pair_trades fifoSample)).map (fun p => (p.date1, p.date2, p.quantity)) =
      [(1, 3, -3), (2, 4, -5), (1, 4, -2)] := by decide

/-- **C3** (counterexample): the two-lot option group `optionGroupSample`
(net +5) is auto-closed by one appended synthetic trade, but the
subsequent pairing emits two pairs and NEITHER is marked synthetic (the
split copies reset `fake`), contradicting "exactly one additional Trade
Pair marked `is_synthetic = true`". -/
theorem c3_counterexample :
    netQuantity optionGroupSample = 5 ∧
    (tradesOf (finishGroup true "oid" optionGroupSample)).map (·.fake) =
      [false, false, true] ∧
    (pairsOf (pair_trades (tradesOf (finishGroup true "oid" optionGroupSample)))).map
      (fun p => (p.fake, p.quantity)) = [(false, 3), (false, -2)] :=
  ⟨by decide, by decide, by decide⟩

/-- **C9** (counterexample): a zero-quantity trade is not rejected at
construction or ingestion and IS offered to the matcher: alone it is
enqueued as a sell and surfaces only as the end-of-run unbalanced-queue
`ValueError`; after a buy it reaches `TradePair.__init__` inside the
matcher and dies on the pair's sign assertion — in neither case an
InvalidTrade-style ingestion error. -/
theorem c9_counterexample :
    pair_trades [zeroSample] = .error (unbalancedMsg 1) ∧
    pair_trades [sampleTrade "AAPL" 5 1 1, zeroSample] = .error "AssertionError" :=
  ⟨rfl, rfl⟩

/-- **C1** (amended): the pushed-back remainder goes to the BACK of the
queue: when a buy meets a larger queued sell (and symmetrically a sell a
larger queued buy), the inner loop stops, emits one pair, and appends the
remainder at the tail of the popped queue, after any still-queued lots. -/
theorem c1_remainder_to_tail :
    (∀ (t st : StockTrade) (rest : List StockTrade) (ps : List TradePair),
      0 < t.quantity → st.quantity < 0 → t.quantity + st.quantity < 0 →
      t.symbol = st.symbol → symSetter st.symbol = st.symbol →
      t.security_type = st.security_type →
      buyLoop t (st :: rest) ps =
        .ok (none, rest ++ [{ st.copy with quantity := t.quantity + st.quantity }],
          ps ++ [mkTradePair t { st.copy with quantity := -t.quantity }])) ∧
    (∀ (t bt : StockTrade) (rest : List StockTrade) (ps : List TradePair),
      t.quantity < 0 → 0 < bt.quantity → 0 < t.quantity + bt.quantity →
      t.symbol = bt.symbol → symSetter bt.symbol = bt.symbol →
      t.security_type = bt.security_type →
      sellLoop t (bt :: rest) ps =
        .ok (none, rest ++ [{ bt.copy with quantity := t.quantity + bt.quantity }],
          ps ++ [mkTradePair t { bt.copy with quantity := -t.quantity }])) := by
  constructor
  · intro t st rest ps ht hst hsum hsym hnorm hsec
    rw [buyLoop, matchT_buy_less t st ht hst hsum hsym hnorm hsec]
    simp [hsum]
  · intro t bt rest ps ht hbt hsum hsym hnorm hsec
    rw [sellLoop, matchT_sell_less t bt ht hbt hsum hsym hnorm hsec]
    simp [hsum]

/-- **C1** witness: a buy of 3 against a queued sell of 5 (with another
sell of 5 still queued behind it) stops with the remainder `-2` placed at
the tail, behind the other queued lot. -/
theorem c1_remainder_to_tail_witness :
    0 < (sampleTrade "AAPL" 3 3 1).quantity ∧
    buyLoop (sampleTrade "AAPL" 3 3 1)
        (sampleTrade "AAPL" (-5) 1 1 :: [sampleTrade "AAPL" (-5) 2 1]) [] =
      .ok (none,
        [sampleTrade "AAPL" (-5) 2 1] ++
          [{ (sampleTrade "AAPL" (-5) 1 1).copy with
              quantity := (sampleTrade "AAPL" 3 3 1).quantity +
                (sampleTrade "AAPL" (-5) 1 1).quantity }],
        [] ++ [mkTradePair (sampleTrade "AAPL" 3 3 1)
          { (sampleTrade "AAPL" (-5) 1 1).copy with
              quantity := -(sampleTrade "AAPL" 3 3 1).quantity }]) :=
  ⟨by decide, c1_remainder_to_tail.1 _ _ _ _ (by decide) (by decide) (by decide)
    (by decide) (by decide) (by decide)⟩

/-- **C4** (amended): universally, every unbalanced run ends in the hard
unbalanced-position `ValueError` naming the COUNT of input trades (not
the instrument), and no partial pair list is ever returned: (1) for
every nonzero-quantity single-instrument input whose quantities do not
sum to zero — which is exactly when a queue is left non-empty —
`pair_trades` returns `.error (unbalancedMsg trades.length)` and hence
no pairs at all; (2) in particular any never-closed single trade raises
it with count 1; (3) the no-partial-result clause bites on multi-trade
runs: on `unbalancedSample` the main loop itself completes with a
non-empty pair list already emitted, yet `pair_trades` still returns
only the count-naming error and none of those pairs. -/
theorem c4_unbalanced_no_partial :
    (∀ (trades : List StockTrade) (sym : String) (sec : SecurityType),
      symSetter sym = sym →
      (∀ t ∈ trades, t.quantity ≠ 0 ∧ t.symbol = sym ∧ t.security_type = sec) →
      netQuantity trades ≠ 0 →
      pair_trades trades = .error (unbalancedMsg trades.length)) ∧
    (∀ t : StockTrade, t.quantity ≠ 0 → pair_trades [t] = .error (unbalancedMsg 1)) ∧
    (∃ bq sq ps, pairGo unbalancedSample [] [] [] = .ok (bq, sq, ps) ∧ ps ≠ []) ∧
    pair_trades unbalancedSample = .error (unbalancedMsg 3) := by
  refine ⟨?_, ?_, ?_, rfl⟩
  · intro trades sym sec hnorm h hnz
    obtain ⟨bq', sq', ps', hgo, _, _, _, hsum⟩ :=
      pairGo_spec sym sec hnorm trades [] [] [] 0 h
        ⟨by simp, by simp, Or.inl rfl, by simp [netQuantity_nil]⟩
    have h0 := netQuantity_nil
    unfold pair_trades
    rw [hgo]
    dsimp only
    have hcond : sq' ≠ [] ∨ bq' ≠ [] := by
      by_contra hc
      push_neg at hc
      obtain ⟨hs0, hb0⟩ := hc
      rw [hs0, hb0] at hsum
      omega
    rw [if_pos hcond]
  · intro t h
    rcases lt_or_gt_of_ne h with hneg | hpos
    · have h' : ¬t.quantity > 0 := by omega
      simp [pair_trades, pairGo, sellLoop, h']
    · simp [pair_trades, pairGo, buyLoop, hpos]
  · exact ⟨_, _, _, rfl, by decide⟩

/-- **C4** witness: the unbalanced three-trade input (net +9, one pair
emitted mid-run) and the single buy of 10 each raise the count-naming
unbalanced error. -/
theorem c4_unbalanced_no_partial_witness :
    symSetter "AAPL" = "AAPL" ∧
    (∀ t ∈ unbalancedSample,
      t.quantity ≠ 0 ∧ t.symbol = "AAPL" ∧ t.security_type = SecurityType.stock) ∧
    netQuantity unbalancedSample ≠ 0 ∧
    pair_trades unbalancedSample = .error (unbalancedMsg unbalancedSample.length) ∧
    (sampleTrade "AAPL" 10 1 1).quantity ≠ 0 ∧
    pair_trades [sampleTrade "AAPL" 10 1 1] = .error (unbalancedMsg 1) :=
  ⟨by decide, by decide, by decide,
    c4_unbalanced_no_partial.1 unbalancedSample "AAPL" SecurityType.stock
      (by decide) (by decide) (by decide),
    by decide,
    c4_unbalanced_no_partial.2.1 _ (by decide)⟩

/-- **C9** (amended): no zero-quantity validation exists; a zero-quantity
trade takes the sell branch of the matcher: alone it is enqueued and the
run ends with the unbalanced-queue error; against a non-empty buy queue it
reaches `TradePair.__init__` and fails its sign assertion. -/
theorem c9_zero_quantity_reaches_matcher (z b : StockTrade) (hz : z.quantity = 0)
    (hb : 0 < b.quantity) :
    pair_trades [z] = .error (unbalancedMsg 1) ∧
    pair_trades [b, z] = .error "AssertionError" := by
  have hznp : ¬z.quantity > 0 := by omega
  constructor
  · simp [pair_trades, pairGo, sellLoop, hznp]
  · have h1 : z.quantity + b.quantity ≠ 0 := by omega
    have h2 : ¬(z.quantity + b.quantity) * z.quantity > 0 := by
      rw [hz]; simp
    have e : b.quantity - (z.quantity + b.quantity) = 0 := by omega
    have e2 : ¬z.quantity * 0 < 0 := by simp
    simp [pair_trades, pairGo, buyLoop, sellLoop, matchT, mkTradePairE, hb, hznp,
      h1, h2, e, e2, hz]

/-- **C9** witness: the amended behavior at a concrete zero trade and a
concrete buy of 5. -/
theorem c9_zero_quantity_reaches_matcher_witness :
    zeroSample.quantity = 0 ∧ 0 < (sampleTrade "AAPL" 5 1 1).quantity ∧
    pair_trades [zeroSample] = .error (unbalancedMsg 1) ∧
    pair_trades [sampleTrade "AAPL" 5 1 1, zeroSample] = .error "AssertionError" :=
  ⟨by decide, by decide,
    (c9_zero_quantity_reaches_matcher zeroSample (sampleTrade "AAPL" 5 1 1)
      (by decide) (by decide)).1,
    (c9_zero_quantity_reaches_matcher zeroSample (sampleTrade "AAPL" 5 1 1)
      (by decide) (by decide)).2⟩

/-- **C3** (amended): on a nonzero net, auto-close always appends exactly
one synthetic trade — a copy of the group's first trade with quantity
`-net`, price 0, `fake = true`.  For a SINGLE-trade group the subsequent
pairing emits exactly one pair, marked synthetic, whose profit is the
zero-price close `-(quantity * price)`.  (For multi-lot groups the marker
is lost on split copies; see the counterexample.) -/
theorem c3_auto_close (t : StockTrade) (oid : String) (hq : t.quantity ≠ 0)
    (hnorm : symSetter t.symbol = t.symbol) :
    (∀ (g : List StockTrade) (i : String), netQuantity g ≠ 0 → closeGroup true i g =
      .ok (g ++ [{ g.headI.copy with quantity := -netQuantity g, price := priceSetter 0, fake := true }])) ∧
    finishGroup true oid [t] =
      .ok [t, { t.copy with quantity := -t.quantity, price := 0, fake := true }] ∧
    pair_trades [t, { t.copy with quantity := -t.quantity, price := 0, fake := true }] =
      .ok [mkTradePair { t.copy with quantity := -t.quantity, price := 0, fake := true } t] ∧
    (mkTradePair { t.copy with quantity := -t.quantity, price := 0, fake := true } t).fake
      = true ∧
    (mkTradePair { t.copy with quantity := -t.quantity, price := 0, fake := true } t).profit
      = -((t.quantity : ℚ) * t.price) := by
  have hsec : ({ t.copy with quantity := -t.quantity, price := 0, fake := true
                 : StockTrade }).security_type = t.security_type := rfl
  have hsym : ({ t.copy with quantity := -t.quantity, price := 0, fake := true
                 : StockTrade }).symbol = t.symbol := hnorm
  refine ⟨fun g i hne => ?_, ?_, ?_, ?_, ?_⟩
  · simp [closeGroup, hne]
  · have h1 : netQuantity [t] ≠ 0 := by simpa [netQuantity] using hq
    simp [finishGroup, resolveConfusion_single t hq, closeGroup, h1, netQuantity,
      priceSetter_zero, hq]
  · rcases lt_or_gt_of_ne hq with hneg | hpos
    · have hm := matchT_buy_exact
        { t.copy with quantity := -t.quantity, price := 0, fake := true } t
        (by simp; omega) (by simp) hsym hsec
      have hnp : ¬t.quantity > 0 := by omega
      simp [pair_trades, pairGo, buyLoop, sellLoop, hm, hnp, hneg]
    · have hm := matchT_sell_exact
        { t.copy with quantity := -t.quantity, price := 0, fake := true } t
        (by simp; omega) (by simp) hsym hsec
      have hnp : ¬-t.quantity > 0 := by omega
      simp [pair_trades, pairGo, buyLoop, sellLoop, hm, hnp, hpos]
  · cases hk : keyLt t { t.copy with quantity := -t.quantity, price := 0, fake := true } <;>
      simp [mkTradePair, hk]
  · simp [mkTradePair, StockTrade.amount]

/-- **C3** witness: the single-lot auto-close at a buy of 3: one synthetic
trade appended, and the one resulting pair is marked synthetic. -/
theorem c3_auto_close_witness :
    (sampleOptTrade 3 1 2).quantity ≠ 0 ∧
    symSetter (sampleOptTrade 3 1 2).symbol = (sampleOptTrade 3 1 2).symbol ∧
    finishGroup true "x" [sampleOptTrade 3 1 2] =
      .ok [sampleOptTrade 3 1 2,
        { (sampleOptTrade 3 1 2).copy with quantity := -(sampleOptTrade 3 1 2).quantity, price := 0, fake := true }] ∧
    (mkTradePair
      { (sampleOptTrade 3 1 2).copy with quantity := -(sampleOptTrade 3 1 2).quantity, price := 0, fake := true }
      (sampleOptTrade 3 1 2)).fake = true :=
  ⟨by decide, by decide,
    (c3_auto_close (sampleOptTrade 3 1 2) "x" (by decide) (by decide)).2.1,
    (c3_auto_close (sampleOptTrade 3 1 2) "x" (by decide) (by decide)).2.2.2.1⟩

/-- **C5** (confirmed): per option group, with `q` the non-ambiguous and
`c_q` the ambiguous net: if `q + c_q = 0` nothing changes (this includes
the `q = 0 ∧ c_q = 0` first branch); else if `q - c_q = 0` exactly the
ambiguous trades' quantities are negated in place; otherwise nothing is
flipped. -/
theorem c5_confusion_flip (trades : List StockTrade) :
    (netNormal trades + netConfusion trades = 0 → resolveConfusion trades = trades) ∧
    (netNormal trades + netConfusion trades ≠ 0 →
      netNormal trades - netConfusion trades = 0 →
      resolveConfusion trades =
        trades.map fun t => if isConfusion t then { t with quantity := -t.quantity } else t) ∧
    (netNormal trades + netConfusion trades ≠ 0 →
      netNormal trades - netConfusion trades ≠ 0 →
      resolveConfusion trades = trades) := by
  unfold resolveConfusion
  refine ⟨fun h => ?_, fun h1 h2 => ?_, fun h1 h2 => ?_⟩ <;>
    split_ifs <;> first | rfl | omega

/-- **C5** witness: the three branches at concrete groups — balanced
(`+5` normal, `-5` ambiguous: untouched), flippable (`+5` normal, `+5`
ambiguous: ambiguous negated), and neither (`+5` normal, `+3` ambiguous:
untouched). -/
theorem c5_confusion_flip_witness :
    (netNormal [sampleTrade "AAPL" 5 1 1, confusionSample (-5)] +
        netConfusion [sampleTrade "AAPL" 5 1 1, confusionSample (-5)] = 0 ∧
      resolveConfusion [sampleTrade "AAPL" 5 1 1, confusionSample (-5)] =
        [sampleTrade "AAPL" 5 1 1, confusionSample (-5)]) ∧
    (resolveConfusion [sampleTrade "AAPL" 5 1 1, confusionSample 5] =
        [sampleTrade "AAPL" 5 1 1, confusionSample (-5)]) ∧
    (resolveConfusion [sampleTrade "AAPL" 5 1 1, confusionSample 3] =
        [sampleTrade "AAPL" 5 1 1, confusionSample 3]) := by
  refine ⟨⟨by decide, (c5_confusion_flip _).1 (by decide)⟩, ?_, ?_⟩
  · have h := (c5_confusion_flip [sampleTrade "AAPL" 5 1 1, confusionSample 5]).2.1
      (by decide) (by decide)
    rw [h]; decide
  · exact (c5_confusion_flip _).2.2 (by decide) (by decide)

/-- **C10** (confirmed): over nonzero-quantity trades of one instrument
(normalized symbol), `pair_trades` returns normally with a pair list iff
the input quantities sum to zero.  The proof goes through the loop
invariant: at most one queue is ever non-empty, queues are direction-pure,
and they hold exactly the net processed quantity, so the leftover detected
at the end is exactly the nonzero net. -/
theorem c10_balance_iff (trades : List StockTrade) (sym : String) (sec : SecurityType)
    (hnorm : symSetter sym = sym)
    (h : ∀ t ∈ trades, t.quantity ≠ 0 ∧ t.symbol = sym ∧ t.security_type = sec) :
    (∃ ps, pair_trades trades = .ok ps) ↔ netQuantity trades = 0 := by
  obtain ⟨bq', sq', ps', hgo, hbq, hsq, hone, hsum⟩ :=
    pairGo_spec sym sec hnorm trades [] [] [] 0 h
      ⟨by simp, by simp, Or.inl rfl, by simp [netQuantity_nil]⟩
  have h0 := netQuantity_nil
  unfold pair_trades
  rw [hgo]
  dsimp only
  by_cases hemp : sq' ≠ [] ∨ bq' ≠ []
  · rw [if_pos hemp]
    constructor
    · rintro ⟨ps, hps⟩
      simp at hps
    · intro hz
      exfalso
      have hzz : netQuantity bq' + netQuantity sq' = 0 := by omega
      rcases hone with hbqe | hsqe
      · have hs0 : netQuantity sq' = 0 := by rw [hbqe] at hzz; omega
        have hse : sq' = [] := neg_net_zero_nil sq' (fun x hx => (hsq x hx).1) hs0
        rcases hemp with he | he
        · exact he hse
        · exact he hbqe
      · have hb0 : netQuantity bq' = 0 := by rw [hsqe] at hzz; omega
        have hbe : bq' = [] := pos_net_zero_nil bq' (fun x hx => (hbq x hx).1) hb0
        rcases hemp with he | he
        · exact he hsqe
        · exact he hbe
  · rw [if_neg hemp]
    push_neg at hemp
    obtain ⟨hsqe, hbqe⟩ := hemp
    constructor
    · intro _
      rw [hsqe, hbqe] at hsum
      omega
    · intro _
      exact ⟨ps', rfl⟩

/-- **C10** witness: the balanced buy-5/sell-5 input pairs successfully. -/
theorem c10_balance_iff_witness :
    symSetter "AAPL" = "AAPL" ∧
    (∀ t ∈ [sampleTrade "AAPL" 5 1 2, sampleTrade "AAPL" (-5) 2 3],
      t.quantity ≠ 0 ∧ t.symbol = "AAPL" ∧ t.security_type = SecurityType.stock) ∧
    (∃ ps, pair_trades [sampleTrade "AAPL" 5 1 2, sampleTrade "AAPL" (-5) 2 3] = .ok ps) :=
  ⟨by decide, by decide,
    (c10_balance_iff [sampleTrade "AAPL" 5 1 2, sampleTrade "AAPL" (-5) 2 3] "AAPL"
      SecurityType.stock (by decide) (by decide)).mpr (by decide)⟩

/-- **C8** (confirmed): `stock_pairs` mutates neither the ledger's stored
trade list nor any trade object in it (every store write in matching
targets a freshly allocated copy), and its result is a pure function of
the stored trades' values; hence calling it twice in succession yields
identical pair lists. -/
theorem c8_stock_pairs_idempotent (s : Store) (stock_trades : List Ref)
    (h : ∀ r ∈ stock_trades, r < s.length) :
    (∀ r, r < s.length → readS (stock_pairsS s stock_trades).2 r = readS s r) ∧
    (stock_pairsS (stock_pairsS s stock_trades).2 stock_trades).1 =
      (stock_pairsS s stock_trades).1 := by
  obtain ⟨res1, s1, hpt, hext, hres⟩ := pair_tradesS_spec s stock_trades h
  have hframe : ∀ r, r < s.length → readS s1 r = readS s r :=
    fun r hr => readS_mono hext hr
  constructor
  · intro r hr
    simp only [stock_pairsS, hpt]
    exact hframe r hr
  · obtain ⟨res2, s2, hpt2, hext2, hres2⟩ := pair_tradesS_spec s1 stock_trades
      (fun r hr => lt_of_lt_of_le (h r hr) hext.le_length)
    have hmap : stock_trades.map (readS s1) = stock_trades.map (readS s) :=
      List.map_congr_left fun r hr => hframe r (h r hr)
    simp only [stock_pairsS, hpt, hpt2]
    rw [hres2, hres, hmap]

/-- **C8** witness: two successive `stock_pairs` runs over the stored
`fifoSample` trades return the same result. -/
theorem c8_stock_pairs_idempotent_witness :
    (∀ r ∈ ([0, 1, 2, 3] : List Ref), r < (fifoSample : Store).length) ∧
    (stock_pairsS ((stock_pairsS fifoSample [0, 1, 2, 3]).2) [0, 1, 2, 3]).1 =
      (stock_pairsS fifoSample [0, 1, 2, 3]).1 :=
  ⟨by decide, (c8_stock_pairs_idempotent fifoSample [0, 1, 2, 3] (by decide)).2⟩

end CapitalGains
